import Mathlib

/-!
Verification of the Git smart-protocol engine (`src/protocol/smart.rs`).

Byte buffers are modelled as `List Char` (all protocol traffic of the engine
is ASCII framing around opaque payload characters).  The asynchronous
collaborator traits (`RepositoryAccess`, the pack codec) are modelled as an
oracle record `RepoModel`; each protocol operation returns its result
together with the ordered list of collaborator calls it performed.  The
framing helpers from `utils.rs` and the `RefCommand` methods from `types.rs`
are not part of the sources and are modelled from the specification.
-/

/-- Byte strings of the wire protocol, modelled as lists of characters. -/
abbrev Str := List Char

/-- Decidable equality for `Except` results, used to evaluate the model on
concrete inputs. -/
instance {ε α : Type} [DecidableEq ε] [DecidableEq α] : DecidableEq (Except ε α) := fun a b =>
  match a, b with
  | Except.ok x, Except.ok y =>
    if h : x = y then isTrue (by rw [h]) else isFalse (by intro hh; cases hh; exact h rfl)
  | Except.error x, Except.error y =>
    if h : x = y then isTrue (by rw [h]) else isFalse (by intro hh; cases hh; exact h rfl)
  | Except.ok _, Except.error _ => isFalse (by intro hh; cases hh)
  | Except.error _, Except.ok _ => isFalse (by intro hh; cases hh)

/-- The space separator byte. -/
def SP : Char := ' '

/-- The line-feed byte. -/
def LF : Char := '\n'

/-- The NUL byte separating the first ref from its capability list. -/
def NUL : Char := Char.ofNat 0

/-- The all-zero object id denoting absence of an object. -/
def ZERO_ID : String := "0000000000000000000000000000000000000000"

/-- Lowercase hexadecimal digit for a value below 16, as produced by the
Rust `{:04x}` formatter. -/
def hexChar (d : Nat) : Char :=
  if d < 10 then Char.ofNat (48 + d) else Char.ofNat (87 + d)

/-- Minimal lowercase hexadecimal digit string of a number (fuel-driven so
that it evaluates by kernel reduction). -/
def hexDigitsAux : Nat → Nat → List Char
  | 0, _ => []
  | fuel + 1, n =>
    if n < 16 then [hexChar n] else hexDigitsAux fuel (n / 16) ++ [hexChar (n % 16)]

/-- Minimal lowercase hexadecimal digit string of a number. -/
def hexDigits (n : Nat) : List Char := hexDigitsAux (n + 1) n

/-- The Rust `format!("{:04x}", n)`: minimal lowercase hex digits, zero-padded
on the left to at least four characters (never truncated). -/
def hexPad4 (n : Nat) : Str :=
  List.replicate (4 - (hexDigits n).length) '0' ++ hexDigits n

/-- Numeric value of one lowercase hexadecimal digit character. -/
def hexVal (c : Char) : Option Nat :=
  if ('0' ≤ c && c ≤ '9') then some (c.toNat - 48)
  else if ('a' ≤ c && c ≤ 'f') then some (c.toNat - 87)
  else none

/-- Parse a four-character hexadecimal length prefix. -/
def parseHex4 : Str → Option Nat
  | [a, b, c, d] =>
    match hexVal a, hexVal b, hexVal c, hexVal d with
    | some va, some vb, some vc, some vd =>
      some (((va * 16 + vb) * 16 + vc) * 16 + vd)
    | _, _, _, _ => none
  | _ => none

/-- Modelled from the spec: the flush marker `0000` (`PKT_LINE_END_MARKER`
of `types.rs`, which is not under the sources). -/
def PKT_LINE_END_MARKER : Str := ("0000").toList

/-- Modelled from the spec: `utils::add_pkt_line_string` (not under the
sources) appends a `len(s)+4` four-hex prefix and then the payload. -/
def add_pkt_line_string (out : Str) (s : Str) : Str :=
  out ++ hexPad4 (s.length + 4) ++ s

/-- One pkt-line on its own (an `add_pkt_line_string` into an empty buffer). -/
def pktLine (s : Str) : Str := add_pkt_line_string [] s

/-- Modelled from the spec: `utils::read_pkt_line` (not under the sources).
Returns `(consumed, payload)`: `(0, empty)` on an exhausted buffer,
`(4, empty)` on the flush marker, else the declared length and the payload.
The call sites in `smart.rs` destructure a plain pair, so a malformed prefix
is modelled as the terminal `(0, empty)`. -/
def read_pkt_line (buf : Str) : Nat × Str :=
  if buf.length < 4 then (0, [])
  else
    match parseHex4 (buf.take 4) with
    | none => (0, [])
    | some n =>
      if n = 0 then (4, [])
      else if n < 4 then (0, [])
      else if buf.length < n then (0, [])
      else (n, (buf.drop 4).take (n - 4))

/-- Whether a byte terminates a token of a command line: ASCII whitespace or
the NUL that introduces the capability tail. -/
def is_delim (c : Char) : Bool :=
  c == ' ' || c == '\n' || c == '\t' || c == '\r' || c == Char.ofNat 0

/-- Modelled from the spec: `utils::read_until_white_space` (not under the
sources).  Consumes bytes up to and including the first delimiter and
returns the token together with the remaining bytes; command lines have the
shape `<old> <new> <ref>[\0<caps>]` (spec section 4.4). -/
def read_until_white_space : Str → Str × Str
  | [] => ([], [])
  | c :: rest =>
    if is_delim c then ([], rest)
    else
      let r := read_until_white_space rest
      (c :: r.1, r.2)

/-- Transport carrier of the session (`types::TransportProtocol`, declared
outside the sources; values per the spec data model). -/
inductive TransportProtocol
  | http
  | ssh
deriving DecidableEq

/-- The two smart services (`types::ServiceType`). -/
inductive ServiceType
  | uploadPack
  | receivePack
deriving DecidableEq

/-- Modelled from the spec: the service name used in the HTTP advertisement
header (`ServiceType` display, not under the sources). -/
def service_name : ServiceType → Str
  | ServiceType.uploadPack => ("git-upload-pack").toList
  | ServiceType.receivePack => ("git-receive-pack").toList

/-- Ref classification of a receive-pack command (`types::RefTypeEnum`). -/
inductive RefTypeEnum
  | branch
  | tag
deriving DecidableEq

/-- Modelled from the spec: the capability enum of `types.rs` (not under the
sources); the spec lists these members. -/
inductive Capability
  | multiAck
  | multiAckDetailed
  | sideBand
  | sideBand64k
  | ofsDelta
  | reportStatus
  | noDone
  | thinPack
  | agent (s : Str)
deriving DecidableEq

/-- Modelled from the spec: decoding of one whitespace-separated capability
token; unknown tokens are dropped by the caller. -/
def capability_of_token (t : Str) : Option Capability :=
  if t = ("multi_ack").toList then some Capability.multiAck
  else if t = ("multi_ack_detailed").toList then some Capability.multiAckDetailed
  else if t = ("side-band").toList then some Capability.sideBand
  else if t = ("side-band-64k").toList then some Capability.sideBand64k
  else if t = ("ofs-delta").toList then some Capability.ofsDelta
  else if t = ("report-status").toList then some Capability.reportStatus
  else if t = ("no-done").toList then some Capability.noDone
  else if t = ("thin-pack").toList then some Capability.thinPack
  else if ("agent=").toList.isPrefixOf t then some (Capability.agent (t.drop 6))
  else none

/-- Split a byte string at ASCII whitespace (the Rust `split_whitespace`),
accumulator-based so it evaluates by kernel reduction. -/
def splitWsAux : Str → Str → List Str
  | [], acc => if acc = [] then [] else [acc.reverse]
  | c :: rest, acc =>
    if is_delim c then
      if acc = [] then splitWsAux rest [] else acc.reverse :: splitWsAux rest []
    else splitWsAux rest (c :: acc)

/-- Split a byte string into whitespace-separated tokens. -/
def splitWs (l : Str) : List Str := splitWsAux l []

/-- Modelled from the spec: side-band channel tags (`types::SideBind`). -/
inductive SideBind
  | packfileData
  | progressInfo
  | errorInfo
deriving DecidableEq

/-- Modelled from the spec: band bytes, `1` = pack data, `2` = progress,
`3` = error. -/
def SideBind.value : SideBind → Nat
  | SideBind.packfileData => 1
  | SideBind.progressInfo => 2
  | SideBind.errorInfo => 3

/-- The engine's error taxonomy (`types::ProtocolError`, members per the
spec's error-handling design). -/
inductive ProtocolError
  | invalidRequest (msg : Str)
  | repositoryError (msg : Str)
  | authenticationError (msg : Str)
  | packError (msg : Str)
deriving DecidableEq

/-- Shorthand for `ProtocolError::repository_error`. -/
def ProtocolError.repository_error (msg : Str) : ProtocolError :=
  ProtocolError.repositoryError msg

/-- Terminal status of a receive-pack command (spec data model: `Ok` or
`Failed(message)`). -/
inductive CmdStatus
  | ok
  | failed (msg : Str)
deriving DecidableEq

/-- Modelled from the spec: `types::RefCommand` (not under the sources):
`old_hash`, `new_hash`, `ref_name`, classified `ref_type`, the
`default_branch` flag and the terminal status. -/
structure RefCommand where
  old_hash : Str
  new_hash : Str
  ref_name : Str
  ref_type : RefTypeEnum
  default_branch : Bool
  status : CmdStatus
deriving DecidableEq

/-- Modelled from the spec: `RefCommand::new` classifies the ref type by
path (`refs/tags/` gives `Tag`, anything else `Branch`); a fresh command is
unflagged and has the `Ok` status. -/
def RefCommand.new (old_id new_id ref_name : Str) : RefCommand :=
  { old_hash := old_id
    new_hash := new_id
    ref_name := ref_name
    ref_type :=
      if ("refs/tags/").toList.isPrefixOf ref_name then RefTypeEnum.tag
      else RefTypeEnum.branch
    default_branch := false
    status := CmdStatus.ok }

/-- Modelled from the spec: `RefCommand::failed` records the error message
as the terminal status. -/
def RefCommand.failed (c : RefCommand) (msg : Str) : RefCommand :=
  { c with status := CmdStatus.failed msg }

/-- Modelled from the spec: `RefCommand::get_status` renders
`ok <ref>` on success and `ng <ref> <message>` on failure (the in-source
test asserts these payloads carry no trailing line feed). -/
def RefCommand.get_status (c : RefCommand) : Str :=
  match c.status with
  | CmdStatus.ok => ("ok").toList ++ [SP] ++ c.ref_name
  | CmdStatus.failed msg => ("ng").toList ++ [SP] ++ c.ref_name ++ [SP] ++ msg

/-- The per-request session state of `SmartProtocol` (its collaborator
fields are passed separately as the `RepoModel` oracle). -/
structure Session where
  transport_protocol : TransportProtocol
  service_type : Option ServiceType
  capabilities : List Capability
  side_bind : Option SideBind
  command_list : List RefCommand
deriving DecidableEq

/-- One collaborator invocation, recorded in order by each operation. -/
inductive RepoCall
  | getRefs
  | commitExists (hash : Str)
  | updateReference (ref_name : Str) (old_hash : Option Str) (new_hash : Str)
  | hasDefaultBranch
  | handlePackObjects
  | postReceiveHook
  | unpackStream
  | generateFullPack (wants : List Str)
  | generateIncrementalPack (wants : List Str) (haves : List Str)
deriving DecidableEq

/-- The pack stream handed back by the pack generator, modelled as the
request that produced it (the stream itself is opaque to the engine). -/
inductive PackRequest
  | fullPack (wants : List Str)
  | incrementalPack (wants : List Str) (haves : List Str)
deriving DecidableEq

/-- Oracle for the `RepositoryAccess` collaborator and the pack codec.
Repository errors carry the message text that `e.to_string()` would
produce; the codec returns the engine's own `ProtocolError`. -/
structure RepoModel where
  getRefs : Except Str (List (Str × Str))
  commitExists : Str → Except Str Bool
  updateReference : Str → Option Str → Str → Except Str Unit
  hasDefaultBranch : Except Str Bool
  unpackStream : Str → Except ProtocolError Unit
  handlePackObjects : Except Str Unit
  postReceiveHook : Except Str Unit

/-- Modelled from the spec: `UPLOAD_CAP_LIST` of `types.rs` (not under the
sources).  Its concrete contents are unspecified; a representative value is
built from the capability names the spec lists.  No claim depends on it. -/
def UPLOAD_CAP_LIST : Str := ("multi_ack multi_ack_detailed thin-pack no-done ofs-delta ").toList

/-- Modelled from the spec: `RECEIVE_CAP_LIST` of `types.rs` (not under the
sources); representative value, no claim depends on it. -/
def RECEIVE_CAP_LIST : Str := ("report-status ofs-delta ").toList

/-- Modelled from the spec: `COMMON_CAP_LIST` of `types.rs` (not under the
sources); representative value, no claim depends on it. -/
def COMMON_CAP_LIST : Str := ("side-band side-band-64k agent=git-internal").toList

/-- Modelled from the spec: `utils::build_smart_reply` (not under the
sources).  Wraps each ref line as a pkt-line; for HTTP it prepends a
`# service=<name>` pkt-line and a flush marker, and both transports end with
the trailing flush marker. -/
def build_smart_reply (t : TransportProtocol) (lines : List Str) (service : Str) : Str :=
  let body := (lines.map pktLine).flatten ++ PKT_LINE_END_MARKER
  match t with
  | TransportProtocol.http =>
    add_pkt_line_string [] (("# service=").toList ++ service ++ [LF]) ++ PKT_LINE_END_MARKER ++ body
  | TransportProtocol.ssh => body

/-- The closure passed to `refs.iter().find` in `git_info_refs`: an entry
named `HEAD`, or one whose name ends in `/main` or `/master`. -/
def head_candidate (r : Str × Str) : Bool :=
  r.1 == ("HEAD").toList || ("/main").toList.isSuffixOf r.1 ||
    ("/master").toList.isSuffixOf r.1

/-- The head-hash selection of `git_info_refs` (lines 102-108 of
`smart.rs`): the hash of the first entry `find` accepts, else `ZERO_ID`. -/
def info_refs_head_hash (refs : List (Str × Str)) : Str :=
  match refs.find? head_candidate with
  | some r => r.2
  | none => ZERO_ID.toList

/-- `git_info_refs`: requires a service type, reads the refs, derives the
head hash, builds the capability advertisement on the first line and one
`<hash> <name>\n` line per ref, and wraps the lines per transport.
The repository path argument is implicit in the `RepoModel` oracle. -/
def git_info_refs (s : Session) (repo : RepoModel) :
    Except ProtocolError Str × List RepoCall :=
  match s.service_type with
  | none => (Except.error (ProtocolError.repository_error (("Service type not set").toList)), [])
  | some service_type =>
    match repo.getRefs with
    | Except.error e =>
      (Except.error (ProtocolError.repository_error (("Failed to get refs: ").toList ++ e)),
       [RepoCall.getRefs])
    | Except.ok refs =>
      let head_hash := info_refs_head_hash refs
      let cap_list :=
        match service_type with
        | ServiceType.uploadPack => UPLOAD_CAP_LIST ++ COMMON_CAP_LIST
        | ServiceType.receivePack => RECEIVE_CAP_LIST ++ COMMON_CAP_LIST
      let name :=
        if head_hash = ZERO_ID.toList then ("capabilities^\x7b\x7d").toList
        else ("HEAD").toList
      let pkt_line := head_hash ++ [SP] ++ name ++ [NUL] ++ cap_list ++ [LF]
      let ref_list := pkt_line :: refs.map (fun r => r.2 ++ [SP] ++ r.1 ++ [LF])
      (Except.ok (build_smart_reply s.transport_protocol ref_list (service_name service_type)),
       [RepoCall.getRefs])

/-- `parse_capabilities`: split on whitespace and keep the tokens that
decode into the capability enum. -/
def parse_capabilities (cap_str : Str) : List Capability :=
  (splitWs cap_str).filterMap capability_of_token

/-- The request-parsing loop of `git_upload_pack` (lines 151-187): read
pkt-lines, collect `want` and `have` hashes, parse the capability tail of
the first `want`, stop at a flush, exhaustion or `done`.  Fuel-driven on
the buffer length; newly parsed capabilities are accumulated separately and
appended to the session afterwards (the source pushes onto
`self.capabilities`). -/
def upload_parse_aux :
    Nat → Str → List Capability → List Str → List Str → Bool →
    List Capability × List Str × List Str
  | 0, _, caps, wants, haves, _ => (caps, wants, haves)
  | fuel + 1, buf, caps, wants, haves, read_first =>
    let rp := read_pkt_line buf
    if rp.1 = 0 then (caps, wants, haves)
    else if rp.2 = [] then (caps, wants, haves)
    else
      let cw := read_until_white_space rp.2
      if cw.1 = ("want").toList then
        let hw := read_until_white_space cw.2
        if read_first then
          upload_parse_aux fuel (buf.drop rp.1) caps (wants ++ [hw.1]) haves read_first
        else
          upload_parse_aux fuel (buf.drop rp.1) (caps ++ parse_capabilities hw.2)
            (wants ++ [hw.1]) haves true
      else if cw.1 = ("have").toList then
        let hw := read_until_white_space cw.2
        upload_parse_aux fuel (buf.drop rp.1) caps wants (haves ++ [hw.1]) read_first
      else if cw.1 = ("done").toList then (caps, wants, haves)
      else upload_parse_aux fuel (buf.drop rp.1) caps wants haves read_first

/-- Parse an upload-pack request into the newly advertised capabilities and
the `want`/`have` hash lists. -/
def upload_parse (request : Str) : List Capability × List Str × List Str :=
  upload_parse_aux (request.length + 1) request [] [] [] false

/-- The `have` checking loop of `git_upload_pack` (lines 202-219): ask the
repository about each `have` in order, emit `ACK <hash> common\n` for every
present one, remember the first present one as the last common commit, and
abort on a collaborator error. -/
def check_haves (repo : RepoModel) :
    List Str → Str → Str → Except ProtocolError (Str × Str) × List RepoCall
  | [], buf, lc => (Except.ok (buf, lc), [])
  | h :: rest, buf, lc =>
    match repo.commitExists h with
    | Except.error e =>
      (Except.error (ProtocolError.repository_error
          (("Failed to check commit existence: ").toList ++ e)),
       [RepoCall.commitExists h])
    | Except.ok true =>
      let buf2 := add_pkt_line_string buf (("ACK ").toList ++ h ++ (" common\n").toList)
      let lc2 := if lc = [] then h else lc
      let r := check_haves repo rest buf2 lc2
      (r.1, RepoCall.commitExists h :: r.2)
    | Except.ok false =>
      let r := check_haves repo rest buf lc
      (r.1, RepoCall.commitExists h :: r.2)

/-- `git_upload_pack` (lines 142-240): parse the request, then negotiate:
empty `have` gives `NAK` and a full pack; otherwise check the haves, and
either `NAK` with a full pack (no common commit) or the
`ACK ... ready` / flush / `ACK ... ` sequence with an incremental pack. -/
def git_upload_pack (s : Session) (repo : RepoModel) (request : Str) :
    Except ProtocolError (PackRequest × Str) × Session × List RepoCall :=
  let p := upload_parse request
  let s2 := { s with capabilities := s.capabilities ++ p.1 }
  let wants := p.2.1
  let haves := p.2.2
  if haves = [] then
    (Except.ok (PackRequest.fullPack wants, add_pkt_line_string [] (("NAK\n").toList)),
     s2, [RepoCall.generateFullPack wants])
  else
    let ch := check_haves repo haves [] []
    match ch.1 with
    | Except.error e => (Except.error e, s2, ch.2)
    | Except.ok bl =>
      if bl.2 = [] then
        (Except.ok (PackRequest.fullPack wants, add_pkt_line_string bl.1 (("NAK\n").toList)),
         s2, ch.2 ++ [RepoCall.generateFullPack wants])
      else
        (Except.ok (PackRequest.incrementalPack wants haves,
            add_pkt_line_string
              (add_pkt_line_string bl.1 (("ACK ").toList ++ bl.2 ++ (" ready\n").toList)
                ++ PKT_LINE_END_MARKER)
              (("ACK ").toList ++ bl.2 ++ (" \n").toList)),
         s2, ch.2 ++ [RepoCall.generateIncrementalPack wants haves])

/-- `parse_ref_command` (lines 380-387): three tokens, then the capability
tail, which is read into a discarded local. -/
def parse_ref_command (pkt_line : Str) : RefCommand :=
  let r1 := read_until_white_space pkt_line
  let r2 := read_until_white_space r1.2
  let r3 := read_until_white_space r2.2
  let _capabilities := r3.2
  RefCommand.new r1.1 r2.1 r3.1

/-- The pkt-line loop of `parse_receive_pack_commands` (lines 244-257),
fuel-driven on the buffer length. -/
def parse_recv_aux : Nat → Str → List RefCommand → List RefCommand
  | 0, _, acc => acc
  | fuel + 1, buf, acc =>
    let rp := read_pkt_line buf
    if rp.1 = 0 then acc
    else if rp.2 = [] then acc
    else parse_recv_aux fuel (buf.drop rp.1) (acc ++ [parse_ref_command rp.2])

/-- `parse_receive_pack_commands`: append one `RefCommand` per pkt-line to
the session's command list. -/
def parse_receive_pack_commands (s : Session) (protocol_bytes : Str) : Session :=
  { s with command_list :=
      s.command_list ++ parse_recv_aux (protocol_bytes.length + 1) protocol_bytes [] }

/-- `old_hash == ZERO_ID` is converted to "no expected prior value" before
the reference update (lines 307-311 and 326-330). -/
def old_hash_opt (h : Str) : Option Str :=
  if h = ZERO_ID.toList then none else some h

/-- Result of the ref-update loop of `git_receive_pack_stream`. -/
structure ApplyResult where
  commands : List RefCommand
  report : Str
  trace : List RepoCall
  default_exist : Bool
deriving DecidableEq

/-- The ref-update loop of `git_receive_pack_stream` (lines 303-340): tags
are updated directly; for branches, the first one seen while no default
branch exists is promoted; a failing update marks only that command; each
command's status line is appended to the report. -/
def apply_commands (repo : RepoModel) : List RefCommand → Bool → ApplyResult
  | [], de => { commands := [], report := [], trace := [], default_exist := de }
  | command :: rest, de =>
    if command.ref_type = RefTypeEnum.tag then
      let old_hash := old_hash_opt command.old_hash
      let command2 :=
        match repo.updateReference command.ref_name old_hash command.new_hash with
        | Except.ok _ => command
        | Except.error e => command.failed e
      let r := apply_commands repo rest de
      { commands := command2 :: r.commands
        report := add_pkt_line_string [] command2.get_status ++ r.report
        trace := RepoCall.updateReference command.ref_name old_hash command.new_hash :: r.trace
        default_exist := r.default_exist }
    else
      let pr :=
        if !de then ({ command with default_branch := true }, true) else (command, de)
      let command1 := pr.1
      let de1 := pr.2
      let old_hash := old_hash_opt command1.old_hash
      let command2 :=
        match repo.updateReference command1.ref_name old_hash command1.new_hash with
        | Except.ok _ => command1
        | Except.error e => command1.failed e
      let r := apply_commands repo rest de1
      { commands := command2 :: r.commands
        report := add_pkt_line_string [] command2.get_status ++ r.report
        trace := RepoCall.updateReference command1.ref_name old_hash command1.new_hash :: r.trace
        default_exist := r.default_exist }

/-- Core of `git_receive_pack_stream` (lines 261-352) over the collected
pack bytes and the session's command list: unpack via the codec (errors
propagate unchanged), store the objects, start the report with `unpack ok`,
query the default branch, run the update loop, fire the post-receive hook
and close the report with the flush marker. -/
def receive_core (repo : RepoModel) (cmds : List RefCommand) (pack_data : Str) :
    Except ProtocolError Str × List RefCommand × List RepoCall :=
  match repo.unpackStream pack_data with
  | Except.error e => (Except.error e, cmds, [RepoCall.unpackStream])
  | Except.ok _ =>
    match repo.handlePackObjects with
    | Except.error e =>
      (Except.error (ProtocolError.repository_error
          (("Failed to store pack objects: ").toList ++ e)),
       cmds, [RepoCall.unpackStream, RepoCall.handlePackObjects])
    | Except.ok _ =>
      let report := add_pkt_line_string [] (("unpack ok\n").toList)
      match repo.hasDefaultBranch with
      | Except.error e =>
        (Except.error (ProtocolError.repository_error
            (("Failed to check default branch: ").toList ++ e)),
         cmds, [RepoCall.unpackStream, RepoCall.handlePackObjects, RepoCall.hasDefaultBranch])
      | Except.ok default_exist =>
        let r := apply_commands repo cmds default_exist
        match repo.postReceiveHook with
        | Except.error e =>
          (Except.error (ProtocolError.repository_error
              (("Post-receive hook failed: ").toList ++ e)),
           r.commands,
           [RepoCall.unpackStream, RepoCall.handlePackObjects, RepoCall.hasDefaultBranch]
             ++ r.trace ++ [RepoCall.postReceiveHook])
        | Except.ok _ =>
          (Except.ok (report ++ r.report ++ PKT_LINE_END_MARKER),
           r.commands,
           [RepoCall.unpackStream, RepoCall.handlePackObjects, RepoCall.hasDefaultBranch]
             ++ r.trace ++ [RepoCall.postReceiveHook])

/-- `git_receive_pack_stream`: the incoming stream chunks are concatenated
into one pack buffer, then `receive_core` runs over the session's command
list; the processed commands replace the session's list. -/
def git_receive_pack_stream (s : Session) (repo : RepoModel) (chunks : List Str) :
    Except ProtocolError Str × Session × List RepoCall :=
  let r := receive_core repo s.command_list chunks.flatten
  (r.1, { s with command_list := r.2.1 }, r.2.2)

/-- `build_side_band_format` (lines 355-368): with `side-band` or
`side-band-64k` enabled, emit the `{:04x}` encoding of `length + 5`, the
pack-data band byte, then the payload; otherwise the payload unchanged. -/
def build_side_band_format (s : Session) (from_bytes : Str) (length : Nat) : Str :=
  if s.capabilities.contains Capability.sideBand
      || s.capabilities.contains Capability.sideBand64k then
    let length2 := length + 5
    hexPad4 length2 ++ [Char.ofNat SideBind.packfileData.value] ++ from_bytes
  else
    from_bytes

/-- Read consecutive pkt-line payloads until a flush marker, an empty
payload or an exhausted buffer (fuel-driven on the buffer length); this is
the reading discipline the engine itself uses on request buffers. -/
def parse_pkt_aux : Nat → Str → List Str
  | 0, _ => []
  | fuel + 1, buf =>
    let rp := read_pkt_line buf
    if rp.1 = 0 then []
    else if rp.2 = [] then []
    else rp.2 :: parse_pkt_aux fuel (buf.drop rp.1)

/-- Parse a buffer into its list of pkt-line payloads. -/
def parse_pkt_lines (buf : Str) : List Str :=
  parse_pkt_aux (buf.length + 1) buf

/-- Defined from the claim's words: strip the capability tail (the bytes
from the NUL onwards) of a ref advertisement line, keeping the line feed. -/
def strip_cap_tail (line : Str) : Str :=
  line.takeWhile (fun c => c ≠ Char.ofNat 0) ++ [LF]

/-- Defined from the claim's words: the parsed advertisement with the first
line's capability tail stripped. -/
def strip_first_cap_tail : List Str → List Str
  | [] => []
  | l :: rest => strip_cap_tail l :: rest

/-- Whether a collaborator call answered `Ok(true)`. -/
def isOkTrue : Except Str Bool → Bool
  | Except.ok true => true
  | _ => false

/-- Whether a collaborator call answered at all (no error). -/
def exceptIsOk : Except Str Bool → Bool
  | Except.ok _ => true
  | Except.error _ => false


/-- A collaborator oracle whose every call succeeds trivially. -/
def repoOk : RepoModel :=
  { getRefs := Except.ok []
    commitExists := fun _ => Except.ok false
    updateReference := fun _ _ _ => Except.ok ()
    hasDefaultBranch := Except.ok false
    unpackStream := fun _ => Except.ok ()
    handlePackObjects := Except.ok ()
    postReceiveHook := Except.ok () }

/-- A session on which no service type has been chosen yet. -/
def session_unset : Session :=
  { transport_protocol := TransportProtocol.ssh
    service_type := none
    capabilities := []
    side_bind := none
    command_list := [] }

/-- Sample object id. -/
def hashA : Str := ("1111111111111111111111111111111111111111").toList

/-- Second sample object id. -/
def hashB : Str := ("2222222222222222222222222222222222222222").toList

/-- An oracle that reports the two sample commits `b1` and `c1` present. -/
def repo_with_commits : RepoModel :=
  { repoOk with commitExists := fun h => Except.ok (h == ("b1").toList || h == ("c1").toList) }

/-- An upload-pack request: one `want` with a capability tail, two `have`
lines, flush. -/
def upload_request : Str :=
  pktLine (("want a1 side-band-64k\n").toList) ++ pktLine (("have b1\n").toList)
    ++ pktLine (("have c1\n").toList) ++ PKT_LINE_END_MARKER

/-- An oracle whose pack codec rejects every pack. -/
def repo_bad_pack : RepoModel :=
  { repoOk with unpackStream := fun _ => Except.error (ProtocolError.packError (("bad pack").toList)) }

/-- A receive-pack session holding one parsed branch-creation command. -/
def session_one_cmd : Session :=
  { session_unset with
    service_type := some ServiceType.receivePack
    command_list := [RefCommand.new ZERO_ID.toList hashA (("refs/heads/main").toList)] }

/-- A receive-pack request whose single command line carries a capability
tail after the NUL byte. -/
def recv_request : Str :=
  pktLine (ZERO_ID.toList ++ [SP] ++ hashA ++ [SP] ++ ("refs/heads/main").toList
    ++ [NUL] ++ ("report-status side-band-64k").toList) ++ PKT_LINE_END_MARKER


/-- A parsed branch-creation command for `refs/heads/main`. -/
def cmd_main : RefCommand := RefCommand.new ZERO_ID.toList hashA (("refs/heads/main").toList)

/-- A parsed branch-creation command for `refs/heads/other`. -/
def cmd_other : RefCommand := RefCommand.new ZERO_ID.toList hashB (("refs/heads/other").toList)

/-- A receive-pack session with two pending branch commands. -/
def session_two_cmds : Session :=
  { session_unset with
    service_type := some ServiceType.receivePack
    command_list := [cmd_main, cmd_other] }

/-- An oracle that refuses to move `refs/heads/other` with message
`locked` and accepts every other update. -/
def repo_locked : RepoModel :=
  { repoOk with updateReference := fun name _ _ =>
      if name = ("refs/heads/other").toList then Except.error (("locked").toList)
      else Except.ok () }

/-- An SSH upload-pack session for the advertisement round trip. -/
def session_ssh_upload : Session :=
  { session_unset with service_type := some ServiceType.uploadPack }

/-- An oracle advertising a single `refs/heads/main` ref. -/
def repo_main_ref : RepoModel :=
  { repoOk with getRefs := Except.ok [((("refs/heads/main").toList), hashA)] }

/-- The advertisement bytes produced for `repo_main_ref` over SSH. -/
def adv_out : Str :=
  match (git_info_refs session_ssh_upload repo_main_ref).1 with
  | Except.ok o => o
  | Except.error _ => []

/-- A session with the `side-band` capability enabled. -/
def session_sideband : Session :=
  { session_unset with capabilities := [Capability.sideBand] }

theorem hexVal_hexChar : ∀ d < 16, hexVal (hexChar d) = some d := by decide

theorem hexDigitsAux_congr :
    ∀ f₁ f₂ n : Nat, n < f₁ → n < f₂ → hexDigitsAux f₁ n = hexDigitsAux f₂ n := by
  intro f₁
  induction f₁ with
  | zero => intro f₂ n h₁ _; omega
  | succ f ih =>
    intro f₂ n h₁ h₂
    cases f₂ with
    | zero => omega
    | succ g =>
      simp only [hexDigitsAux]
      by_cases hn : n < 16
      · simp [hn]
      · simp only [hn, if_false]
        have hlt : n / 16 < n := Nat.div_lt_self (by omega) (by omega)
        rw [ih g (n / 16) (by omega) (by omega)]

theorem hexDigits_small {n : Nat} (h : n < 16) : hexDigits n = [hexChar n] := by
  simp [hexDigits, hexDigitsAux, h]

theorem hexDigits_step {n : Nat} (h : 16 ≤ n) :
    hexDigits n = hexDigits (n / 16) ++ [hexChar (n % 16)] := by
  have hlt : n / 16 < n := Nat.div_lt_self (by omega) (by omega)
  show hexDigitsAux (n + 1) n = hexDigitsAux (n / 16 + 1) (n / 16) ++ [hexChar (n % 16)]
  rw [hexDigitsAux_congr (n / 16 + 1) n (n / 16) (by omega) (by omega)]
  simp only [hexDigitsAux]
  rw [if_neg (by omega)]

theorem hexDigits_ne_nil (n : Nat) : hexDigits n ≠ [] := by
  by_cases h : n < 16
  · rw [hexDigits_small h]; simp
  · rw [hexDigits_step (by omega)]; simp

theorem hexPad4_eq {n : Nat} (h : n < 65536) :
    hexPad4 n =
      [hexChar (n / 4096), hexChar (n / 256 % 16), hexChar (n / 16 % 16), hexChar (n % 16)] := by
  have h0 : hexChar 0 = '0' := by decide
  by_cases h1 : n < 16
  · rw [hexPad4, hexDigits_small h1]
    have e1 : n / 4096 = 0 := by omega
    have e2 : n / 256 % 16 = 0 := by omega
    have e3 : n / 16 % 16 = 0 := by omega
    have e4 : n % 16 = n := by omega
    simp [e1, e2, e3, e4, h0, List.replicate]
  · by_cases h2 : n < 256
    · rw [hexPad4, hexDigits_step (by omega), hexDigits_small (by omega)]
      have e1 : n / 4096 = 0 := by omega
      have e2 : n / 256 % 16 = 0 := by omega
      have e3 : n / 16 % 16 = n / 16 := by omega
      simp [e1, e2, e3, h0, List.replicate]
    · by_cases h3 : n < 4096
      · rw [hexPad4, hexDigits_step (by omega), hexDigits_step (show 16 ≤ n / 16 by omega),
          hexDigits_small (show n / 16 / 16 < 16 by omega)]
        have e1 : n / 4096 = 0 := by omega
        have e2 : n / 16 / 16 = n / 256 := by omega
        have e3 : n / 256 % 16 = n / 256 := by omega
        have e4 : n / 16 % 16 = n / 16 % 16 := rfl
        simp [e1, e2, e3, h0, List.replicate]
      · rw [hexPad4, hexDigits_step (by omega), hexDigits_step (show 16 ≤ n / 16 by omega),
          hexDigits_step (show 16 ≤ n / 16 / 16 by omega),
          hexDigits_small (show n / 16 / 16 / 16 < 16 by omega)]
        have e1 : n / 16 / 16 / 16 = n / 4096 := by omega
        have e2 : n / 16 / 16 % 16 = n / 256 % 16 := by omega
        simp [e1, e2, List.replicate]

theorem parseHex4_hexPad4 {n : Nat} (h : n < 65536) : parseHex4 (hexPad4 n) = some n := by
  rw [hexPad4_eq h]
  simp only [parseHex4]
  rw [hexVal_hexChar (n / 4096) (by omega), hexVal_hexChar (n / 256 % 16) (by omega),
    hexVal_hexChar (n / 16 % 16) (by omega), hexVal_hexChar (n % 16) (by omega)]
  simp only [Option.some.injEq]
  omega

theorem hexPad4_length {n : Nat} (h : n < 65536) : (hexPad4 n).length = 4 := by
  rw [hexPad4_eq h]; rfl

theorem hexDigits_length_lower : ∀ k n : Nat, 16 ^ k ≤ n → k < (hexDigits n).length := by
  intro k
  induction k with
  | zero =>
    intro n _
    have := hexDigits_ne_nil n
    cases hd : hexDigits n with
    | nil => exact absurd hd this
    | cons a l => simp
  | succ k ih =>
    intro n hn
    have h16 : 16 ≤ n := by
      have hp : (16 : Nat) ^ 1 ≤ 16 ^ (k + 1) := Nat.pow_le_pow_right (by omega) (by omega)
      simpa using le_trans hp hn
    have h16' : (16 : Nat) ^ k ≤ n / 16 := by
      rw [Nat.le_div_iff_mul_le (by omega)]
      calc 16 ^ k * 16 = 16 ^ (k + 1) := by ring
      _ ≤ n := hn
    have := ih (n / 16) h16'
    rw [hexDigits_step h16]
    simp only [List.length_append, List.length_cons, List.length_nil]
    omega

theorem hexPad4_length_eq_four_iff (n : Nat) : (hexPad4 n).length = 4 ↔ n < 65536 := by
  constructor
  · intro hlen
    by_contra hge
    have h : (16 : Nat) ^ 4 ≤ n := by norm_num; omega
    have h5 : 4 < (hexDigits n).length := hexDigits_length_lower 4 n h
    rw [hexPad4, List.length_append, List.length_replicate] at hlen
    omega
  · exact hexPad4_length

theorem read_pkt_line_pktLine (s rest : Str) (h : s.length + 4 ≤ 65535) :
    read_pkt_line (pktLine s ++ rest) = (s.length + 4, s) := by
  have hlt : s.length + 4 < 65536 := by omega
  have hlen4 : (hexPad4 (s.length + 4)).length = 4 := hexPad4_length hlt
  have hshape : pktLine s ++ rest = hexPad4 (s.length + 4) ++ (s ++ rest) := by
    simp [pktLine, add_pkt_line_string]
  have hblen : (hexPad4 (s.length + 4) ++ (s ++ rest)).length
      = 4 + (s.length + rest.length) := by
    simp [hlen4]
  rw [read_pkt_line, hshape, List.take_left' hlen4, parseHex4_hexPad4 hlt]
  rw [if_neg (by omega)]
  dsimp only
  rw [if_neg (by omega), if_neg (by omega), if_neg (by omega)]
  rw [List.drop_left' hlen4]
  have hm : s.length + 4 - 4 = s.length := by omega
  rw [hm, List.take_left]

theorem pktLine_length_pos (s : Str) : 1 ≤ (pktLine s).length := by
  have := hexDigits_ne_nil (s.length + 4)
  simp only [pktLine, add_pkt_line_string, hexPad4, List.nil_append, List.length_append,
    List.length_replicate]
  cases hd : hexDigits (s.length + 4) with
  | nil => exact absurd hd this
  | cons a l => simp only [List.length_cons]; omega

theorem length_le_flatten_map_pktLine :
    ∀ lines : List Str, lines.length ≤ ((lines.map pktLine).flatten).length := by
  intro lines
  induction lines with
  | nil => simp
  | cons l ls ih =>
    have := pktLine_length_pos l
    simp only [List.map_cons, List.flatten_cons, List.length_append, List.length_cons]
    omega

theorem parse_pkt_aux_flatten :
    ∀ (lines : List Str) (fuel : Nat),
      (∀ l ∈ lines, l ≠ [] ∧ l.length + 4 ≤ 65535) → lines.length < fuel →
      parse_pkt_aux fuel ((lines.map pktLine).flatten ++ PKT_LINE_END_MARKER) = lines := by
  intro lines
  induction lines with
  | nil =>
    intro fuel _ hfuel
    cases fuel with
    | zero => omega
    | succ f =>
      have hread : read_pkt_line PKT_LINE_END_MARKER = (4, []) := by decide
      simp [parse_pkt_aux, hread]
  | cons l ls ih =>
    intro fuel hb hfuel
    cases fuel with
    | zero => omega
    | succ f =>
      have hbl := hb l (by simp)
      have hshape : (((l :: ls).map pktLine).flatten ++ PKT_LINE_END_MARKER)
          = pktLine l ++ ((ls.map pktLine).flatten ++ PKT_LINE_END_MARKER) := by
        simp
      have hread := read_pkt_line_pktLine l ((ls.map pktLine).flatten ++ PKT_LINE_END_MARKER)
        hbl.2
      have hdrop : (pktLine l ++ ((ls.map pktLine).flatten ++ PKT_LINE_END_MARKER)).drop
          (l.length + 4) = (ls.map pktLine).flatten ++ PKT_LINE_END_MARKER := by
        apply List.drop_left'
        have h4 := hexPad4_length (show l.length + 4 < 65536 by omega)
        simp [pktLine, add_pkt_line_string, h4]
        omega
      rw [hshape]
      simp only [parse_pkt_aux, hread]
      rw [if_neg (by omega), if_neg (by simpa using hbl.1)]
      rw [hdrop, ih f (fun x hx => hb x (by simp [hx])) (by simp at hfuel; omega)]

theorem parse_pkt_lines_flatten (lines : List Str)
    (hb : ∀ l ∈ lines, l ≠ [] ∧ l.length + 4 ≤ 65535) :
    parse_pkt_lines ((lines.map pktLine).flatten ++ PKT_LINE_END_MARKER) = lines := by
  apply parse_pkt_aux_flatten lines _ hb
  have h1 := length_le_flatten_map_pktLine lines
  simp only [List.length_append]
  omega

/-- Claim C1, counterexample: the refs list carrying first a branch ending
in `/main` and then an entry named `HEAD` with a different hash makes
`git_info_refs` pick the `/main` hash, not the `HEAD` hash the claim
demands. -/
theorem info_refs_head_hash_not_priority :
    ((("HEAD").toList, hashB) ∈ [((("refs/heads/main").toList), hashA), ((("HEAD").toList), hashB)])
      ∧ info_refs_head_hash [((("refs/heads/main").toList), hashA), ((("HEAD").toList), hashB)]
          = hashA
      ∧ hashA ≠ hashB := by decide

/-- Claim C1 (amended): `git_info_refs` picks the hash of the first entry
in list order whose name is `HEAD` or ends in `/main` or `/master` — so
`HEAD` wins only when no other candidate precedes it — and `ZERO_ID` when
no entry qualifies. -/
theorem info_refs_head_hash_first_match :
    (∀ refs : List (Str × Str), (∀ r ∈ refs, head_candidate r = false) →
      info_refs_head_hash refs = ZERO_ID.toList) ∧
    (∀ (pre : List (Str × Str)) (r : Str × Str) (post : List (Str × Str)),
      (∀ x ∈ pre, head_candidate x = false) → head_candidate r = true →
      info_refs_head_hash (pre ++ r :: post) = r.2) := by
  constructor
  · intro refs h
    rw [info_refs_head_hash]
    have hn : refs.find? head_candidate = none :=
      List.find?_eq_none.mpr (fun x hx => by simp [h x hx])
    rw [hn]
  · intro pre r post hpre hr
    have hfind : (pre ++ r :: post).find? head_candidate = some r := by
      induction pre with
      | nil => simpa using List.find?_cons_of_pos post hr
      | cons a l ih =>
        rw [List.cons_append, List.find?_cons_of_neg _ (by simp [hpre a (by simp)])]
        exact ih (fun x hx => hpre x (by simp [hx]))
    rw [info_refs_head_hash, hfind]

/-- Witness for the amended C1 theorem at a concrete refs list. -/
theorem info_refs_head_hash_first_match_witness :
    info_refs_head_hash [((("refs/tags/v1").toList), hashA), ((("HEAD").toList), hashB)]
      = hashB :=
  info_refs_head_hash_first_match.2 [((("refs/tags/v1").toList), hashA)]
    ((("HEAD").toList), hashB) [] (by decide) (by decide)

/-- Claim C2, counterexample: on a session whose service type is still
unset, `git_upload_pack` and `git_receive_pack_stream` complete
successfully instead of failing with a protocol error. -/
theorem service_type_unset_not_all_fail :
    session_unset.service_type = none
      ∧ (git_upload_pack session_unset repoOk []).1
          = Except.ok (PackRequest.fullPack [], pktLine (("NAK\n").toList))
      ∧ (git_receive_pack_stream session_unset repoOk []).1
          = Except.ok (pktLine (("unpack ok\n").toList) ++ PKT_LINE_END_MARKER) := by decide

/-- Claim C2 (amended): only `git_info_refs` guards on the service type —
with it unset the call fails with the protocol error and performs no
collaborator call — while `git_upload_pack` and `git_receive_pack_stream`
never consult the service type: every observable component of their results
is unchanged under any service-type value. -/
theorem service_type_check_only_info_refs :
    (∀ (s : Session) (repo : RepoModel), s.service_type = none →
      git_info_refs s repo
        = (Except.error (ProtocolError.repositoryError (("Service type not set").toList)), []))
    ∧ (∀ (s : Session) (repo : RepoModel) (request : Str) (st : Option ServiceType),
        (git_upload_pack { s with service_type := st } repo request).1
            = (git_upload_pack s repo request).1
          ∧ (git_upload_pack { s with service_type := st } repo request).2.1.capabilities
              = (git_upload_pack s repo request).2.1.capabilities
          ∧ (git_upload_pack { s with service_type := st } repo request).2.2
              = (git_upload_pack s repo request).2.2)
    ∧ (∀ (s : Session) (repo : RepoModel) (chunks : List Str) (st : Option ServiceType),
        (git_receive_pack_stream { s with service_type := st } repo chunks).1
            = (git_receive_pack_stream s repo chunks).1
          ∧ (git_receive_pack_stream { s with service_type := st } repo chunks).2.1.command_list
              = (git_receive_pack_stream s repo chunks).2.1.command_list
          ∧ (git_receive_pack_stream { s with service_type := st } repo chunks).2.2
              = (git_receive_pack_stream s repo chunks).2.2) := by
  refine ⟨?_, ?_, ?_⟩
  · intro s repo h
    simp [git_info_refs, h, ProtocolError.repository_error]
  · intro s repo request st
    rcases hup : upload_parse request with ⟨caps, wants, haves⟩
    by_cases hh : haves = []
    · simp [git_upload_pack, hup, hh]
    · rcases hch : (check_haves repo haves [] []).1 with e | bl
      · simp [git_upload_pack, hup, hh, hch]
      · by_cases hbl : bl.2 = [] <;> simp [git_upload_pack, hup, hh, hch, hbl]
  · intro s repo chunks st
    simp [git_receive_pack_stream]

/-- Witness for the amended C2 theorem: the unset-session advertisement
fails with the protocol error and an empty collaborator trace. -/
theorem service_type_check_only_info_refs_witness :
    git_info_refs session_unset repoOk
      = (Except.error (ProtocolError.repositoryError (("Service type not set").toList)), []) :=
  service_type_check_only_info_refs.1 session_unset repoOk (by decide)

/-- Claim C3, counterexample: when the codec rejects the collected pack
bytes, `git_receive_pack_stream` returns the codec error itself — no status
report containing an `unpack <message>` line is produced — and the only
collaborator call is the unpack itself (in particular no
`update_reference`, even though a command is pending). -/
theorem codec_error_no_report :
    (git_receive_pack_stream session_one_cmd repo_bad_pack [("junk").toList]).1
        = Except.error (ProtocolError.packError (("bad pack").toList))
      ∧ (git_receive_pack_stream session_one_cmd repo_bad_pack [("junk").toList]).2.2
          = [RepoCall.unpackStream]
      ∧ session_one_cmd.command_list ≠ [] := by decide

/-- Claim C3 (amended): when the pack codec fails on the collected pack
bytes, `git_receive_pack_stream` aborts with exactly the codec's error, the
session is left unchanged, and the collaborator trace is the single unpack
call — so no reference update is attempted for any command. -/
theorem codec_error_aborts (s : Session) (repo : RepoModel) (chunks : List Str)
    (e : ProtocolError) (h : repo.unpackStream chunks.flatten = Except.error e) :
    git_receive_pack_stream s repo chunks = (Except.error e, s, [RepoCall.unpackStream]) := by
  simp [git_receive_pack_stream, receive_core, h]

/-- Witness for the amended C3 theorem at the failing codec oracle. -/
theorem codec_error_aborts_witness :
    git_receive_pack_stream session_one_cmd repo_bad_pack [("junk").toList]
      = (Except.error (ProtocolError.packError (("bad pack").toList)), session_one_cmd,
         [RepoCall.unpackStream]) :=
  codec_error_aborts session_one_cmd repo_bad_pack [("junk").toList]
    (ProtocolError.packError (("bad pack").toList)) (by decide)

theorem read_until_white_space_token (w : Str) (d : Char) (rest : Str)
    (hw : ∀ c ∈ w, is_delim c = false) (hd : is_delim d = true) :
    read_until_white_space (w ++ d :: rest) = (w, rest) := by
  induction w with
  | nil => simp [read_until_white_space, hd]
  | cons a l ih =>
    have ha := hw a (by simp)
    simp [read_until_white_space, ha, ih (fun c hc => hw c (List.mem_cons_of_mem a hc))]

set_option maxRecDepth 8192 in
/-- Claim C4, counterexample: parsing a receive-pack request whose first
(and only) command line carries the capability tail
`report-status side-band-64k` yields the command but leaves the session's
capability set empty — the tokens the claim requires are absent. -/
theorem receive_caps_not_populated :
    (parse_receive_pack_commands session_unset recv_request).capabilities = []
      ∧ (parse_receive_pack_commands session_unset recv_request).command_list
          = [RefCommand.new ZERO_ID.toList hashA (("refs/heads/main").toList)] := by decide

/-- Claim C4 (amended): `parse_ref_command` reads the three tokens of a
command line and discards the capability tail after the NUL byte, and
`parse_receive_pack_commands` leaves the session's capability set exactly
as it was. -/
theorem receive_caps_discarded :
    (∀ (s : Session) (protocol_bytes : Str),
      (parse_receive_pack_commands s protocol_bytes).capabilities = s.capabilities)
    ∧ (∀ old_id new_id ref_name tail : Str,
        (∀ c ∈ old_id, is_delim c = false) → (∀ c ∈ new_id, is_delim c = false) →
        (∀ c ∈ ref_name, is_delim c = false) →
        parse_ref_command (old_id ++ [SP] ++ new_id ++ [SP] ++ ref_name ++ [NUL] ++ tail)
          = RefCommand.new old_id new_id ref_name) := by
  constructor
  · intro s protocol_bytes
    rfl
  · intro old_id new_id ref_name tail ho hn hr
    have hshape : old_id ++ [SP] ++ new_id ++ [SP] ++ ref_name ++ [NUL] ++ tail
        = old_id ++ SP :: (new_id ++ SP :: (ref_name ++ NUL :: tail)) := by simp
    rw [parse_ref_command, hshape]
    rw [read_until_white_space_token old_id SP _ ho (by decide)]
    dsimp only
    rw [read_until_white_space_token new_id SP _ hn (by decide)]
    dsimp only
    rw [read_until_white_space_token ref_name NUL _ hr (by decide)]

/-- Witness for the amended C4 theorem on a concrete command line. -/
theorem receive_caps_discarded_witness :
    parse_ref_command ((("ab").toList) ++ [SP] ++ (("cd").toList) ++ [SP]
        ++ (("refs/heads/x").toList) ++ [NUL] ++ (("side-band").toList))
      = RefCommand.new (("ab").toList) (("cd").toList) (("refs/heads/x").toList) :=
  receive_caps_discarded.2 (("ab").toList) (("cd").toList) (("refs/heads/x").toList)
    (("side-band").toList) (by decide) (by decide) (by decide)

theorem add_pkt_line_string_eq (b s : Str) : add_pkt_line_string b s = b ++ pktLine s := by
  simp [add_pkt_line_string, pktLine]

theorem check_haves_spec (repo : RepoModel) :
    ∀ (haves : List Str) (buf lc : Str),
      (∀ h ∈ haves, exceptIsOk (repo.commitExists h) = true) →
      (∀ h ∈ haves, h ≠ []) →
      check_haves repo haves buf lc
        = (Except.ok
            (buf ++ ((haves.filter (fun h => isOkTrue (repo.commitExists h))).map
                (fun h => pktLine ((("ACK ").toList) ++ h ++ ((" common\n").toList)))).flatten,
             if lc = []
               then (haves.filter (fun h => isOkTrue (repo.commitExists h))).headD []
               else lc),
           haves.map (fun h => RepoCall.commitExists h)) := by
  intro haves
  induction haves with
  | nil =>
    intro buf lc _ _
    simp only [check_haves, List.filter_nil, List.map_nil, List.flatten_nil, List.append_nil,
      List.headD_nil]
    by_cases hlc : lc = [] <;> simp [hlc]
  | cons h rest ih =>
    intro buf lc hok hne
    have hh := hok h (by simp)
    have hhne := hne h (by simp)
    cases hce : repo.commitExists h with
    | error e => rw [hce] at hh; simp [exceptIsOk] at hh
    | ok b =>
      cases b with
      | true =>
        have hfil : (h :: rest).filter (fun x => isOkTrue (repo.commitExists x))
            = h :: rest.filter (fun x => isOkTrue (repo.commitExists x)) := by
          simp [List.filter_cons, hce, isOkTrue]
        simp only [check_haves, hce]
        rw [ih _ _ (fun x hx => hok x (by simp [hx])) (fun x hx => hne x (by simp [hx]))]
        rw [hfil]
        by_cases hlc : lc = []
        · simp [hlc, hhne, add_pkt_line_string_eq]
        · simp [hlc, add_pkt_line_string_eq]
      | false =>
        have hfil : (h :: rest).filter (fun x => isOkTrue (repo.commitExists x))
            = rest.filter (fun x => isOkTrue (repo.commitExists x)) := by
          simp [List.filter_cons, hce, isOkTrue]
        simp only [check_haves, hce]
        rw [ih _ _ (fun x hx => hok x (by simp [hx])) (fun x hx => hne x (by simp [hx]))]
        rw [hfil]
        simp

/-- Claim C5: for every upload-pack request (over the parsed `want`/`have`
lists and an oracle that answers every existence check): when no parsed
`have` is present — in particular when the list is empty — the protocol
buffer is exactly one `NAK` pkt-line and a full pack of the wants is
requested; otherwise it is an `ACK <hash> common` pkt-line per present
`have` in order, one `ACK <h> ready` pkt-line, a flush marker, and one
`ACK <h> ` pkt-line, where `<h>` is the earliest present `have`, and an
incremental pack from the wants and haves is requested. -/
theorem upload_negotiation_spec (s : Session) (repo : RepoModel) (request : Str)
    (caps : List Capability) (wants haves : List Str)
    (hparse : upload_parse request = (caps, wants, haves))
    (hok : ∀ h ∈ haves, exceptIsOk (repo.commitExists h) = true)
    (hne : ∀ h ∈ haves, h ≠ []) :
    (haves.filter (fun h => isOkTrue (repo.commitExists h)) = [] →
      (git_upload_pack s repo request).1
        = Except.ok (PackRequest.fullPack wants, pktLine (("NAK\n").toList)))
    ∧ (∀ lc rest, haves.filter (fun h => isOkTrue (repo.commitExists h)) = lc :: rest →
        (git_upload_pack s repo request).1
          = Except.ok (PackRequest.incrementalPack wants haves,
              ((lc :: rest).map
                  (fun h => pktLine ((("ACK ").toList) ++ h ++ ((" common\n").toList)))).flatten
                ++ pktLine ((("ACK ").toList) ++ lc ++ ((" ready\n").toList))
                ++ PKT_LINE_END_MARKER
                ++ pktLine ((("ACK ").toList) ++ lc ++ ((" \n").toList)))) := by
  constructor
  · intro hfil
    by_cases hh : haves = []
    · simp [git_upload_pack, hparse, hh, pktLine]
    · have hch := check_haves_spec repo haves [] [] hok hne
      rw [hfil] at hch
      simp only [List.map_nil, List.flatten_nil, List.append_nil, List.headD_nil,
        if_pos rfl] at hch
      simp [git_upload_pack, hparse, hh, hch, pktLine]
  · intro lc rest hfil
    have hh : haves ≠ [] := by
      intro h
      rw [h] at hfil
      simp at hfil
    have hlcne : lc ≠ [] := by
      apply hne
      apply List.mem_of_mem_filter (p := fun h => isOkTrue (repo.commitExists h))
      rw [hfil]
      simp
    have hch := check_haves_spec repo haves [] [] hok hne
    rw [hfil] at hch
    simp only [List.headD_cons, if_pos rfl] at hch
    simp [git_upload_pack, hparse, hh, hch, hlcne, add_pkt_line_string_eq]

/-- Witness for C5 at the concrete incremental-fetch request: wants `a1`,
haves `b1`, `c1`, both present. -/
theorem upload_negotiation_spec_witness :
    (git_upload_pack session_unset repo_with_commits upload_request).1
      = Except.ok (PackRequest.incrementalPack [("a1").toList] [("b1").toList, ("c1").toList],
          (([("b1").toList, ("c1").toList]).map
              (fun h => pktLine ((("ACK ").toList) ++ h ++ ((" common\n").toList)))).flatten
            ++ pktLine ((("ACK ").toList) ++ ("b1").toList ++ ((" ready\n").toList))
            ++ PKT_LINE_END_MARKER
            ++ pktLine ((("ACK ").toList) ++ ("b1").toList ++ ((" \n").toList))) :=
  (upload_negotiation_spec session_unset repo_with_commits upload_request
    [Capability.sideBand64k] [("a1").toList] [("b1").toList, ("c1").toList]
    (by decide) (by decide) (by decide)).2 (("b1").toList) [("c1").toList] (by decide)

theorem apply_commands_shape (repo : RepoModel) :
    ∀ (cmds : List RefCommand) (de : Bool),
      (apply_commands repo cmds de).commands.length = cmds.length
      ∧ (apply_commands repo cmds de).commands.map (fun c => c.ref_name)
          = cmds.map (fun c => c.ref_name)
      ∧ (apply_commands repo cmds de).commands.map (fun c => c.ref_type)
          = cmds.map (fun c => c.ref_type)
      ∧ (apply_commands repo cmds de).report
          = ((apply_commands repo cmds de).commands.map (fun c => pktLine c.get_status)).flatten
      ∧ (apply_commands repo cmds de).trace
          = cmds.map (fun c =>
              RepoCall.updateReference c.ref_name (old_hash_opt c.old_hash) c.new_hash) := by
  intro cmds
  induction cmds with
  | nil => intro de; simp [apply_commands]
  | cons c rest ih =>
    intro de
    by_cases ht : c.ref_type = RefTypeEnum.tag
    · obtain ⟨ih1, ih2, ih3, ih4, ih5⟩ := ih de
      cases hu : repo.updateReference c.ref_name (old_hash_opt c.old_hash) c.new_hash with
      | ok u =>
        simp [apply_commands, ht, hu, ih1, ih2, ih3, ih4, ih5, add_pkt_line_string_eq]
      | error e =>
        simp [apply_commands, ht, hu, ih1, ih2, ih3, ih4, ih5, add_pkt_line_string_eq,
          RefCommand.failed]
    · by_cases hde : de
      · subst hde
        obtain ⟨ih1, ih2, ih3, ih4, ih5⟩ := ih true
        cases hu : repo.updateReference c.ref_name (old_hash_opt c.old_hash) c.new_hash with
        | ok u =>
          simp [apply_commands, ht, hu, ih1, ih2, ih3, ih4, ih5, add_pkt_line_string_eq]
        | error e =>
          simp [apply_commands, ht, hu, ih1, ih2, ih3, ih4, ih5, add_pkt_line_string_eq,
            RefCommand.failed]
      · obtain ⟨ih1, ih2, ih3, ih4, ih5⟩ := ih true
        cases hu : repo.updateReference c.ref_name (old_hash_opt c.old_hash) c.new_hash with
        | ok u =>
          simp [apply_commands, ht, hde, hu, ih1, ih2, ih3, ih4, ih5, add_pkt_line_string_eq]
        | error e =>
          simp [apply_commands, ht, hde, hu, ih1, ih2, ih3, ih4, ih5, add_pkt_line_string_eq,
            RefCommand.failed]

theorem apply_commands_status (repo : RepoModel) :
    ∀ (cmds : List RefCommand) (de : Bool),
      (∀ c ∈ cmds, c.status = CmdStatus.ok) →
      (apply_commands repo cmds de).report
        = (cmds.map (fun c =>
            pktLine
              (match repo.updateReference c.ref_name (old_hash_opt c.old_hash) c.new_hash with
                | Except.ok _ => ("ok").toList ++ [SP] ++ c.ref_name
                | Except.error m =>
                  ("ng").toList ++ [SP] ++ c.ref_name ++ [SP] ++ m))).flatten := by
  intro cmds
  induction cmds with
  | nil => intro de _; simp [apply_commands]
  | cons c rest ih =>
    intro de hst
    have hc := hst c (by simp)
    have ihr : ∀ de2 : Bool, (apply_commands repo rest de2).report
        = (rest.map (fun c =>
            pktLine
              (match repo.updateReference c.ref_name (old_hash_opt c.old_hash) c.new_hash with
                | Except.ok _ => ("ok").toList ++ [SP] ++ c.ref_name
                | Except.error m =>
                  ("ng").toList ++ [SP] ++ c.ref_name ++ [SP] ++ m))).flatten :=
      fun de2 => ih de2 (fun x hx => hst x (by simp [hx]))
    by_cases ht : c.ref_type = RefTypeEnum.tag
    · cases hu : repo.updateReference c.ref_name (old_hash_opt c.old_hash) c.new_hash with
      | ok u =>
        simp [apply_commands, ht, hu, ihr, add_pkt_line_string_eq, RefCommand.get_status, hc]
      | error e =>
        simp [apply_commands, ht, hu, ihr, add_pkt_line_string_eq, RefCommand.get_status,
          RefCommand.failed]
    · by_cases hde : de
      · subst hde
        cases hu : repo.updateReference c.ref_name (old_hash_opt c.old_hash) c.new_hash with
        | ok u =>
          simp [apply_commands, ht, hu, ihr, add_pkt_line_string_eq, RefCommand.get_status, hc]
        | error e =>
          simp [apply_commands, ht, hu, ihr, add_pkt_line_string_eq, RefCommand.get_status,
            RefCommand.failed]
      · cases hu : repo.updateReference c.ref_name (old_hash_opt c.old_hash) c.new_hash with
        | ok u =>
          simp [apply_commands, ht, hde, hu, ihr, add_pkt_line_string_eq,
            RefCommand.get_status, hc]
        | error e =>
          simp [apply_commands, ht, hde, hu, ihr, add_pkt_line_string_eq,
            RefCommand.get_status, RefCommand.failed]

theorem apply_commands_flags (repo : RepoModel) :
    ∀ (cmds : List RefCommand) (de : Bool),
      (∀ c ∈ cmds, c.default_branch = false) →
      ((de = true → ∀ c ∈ (apply_commands repo cmds de).commands, c.default_branch = false)
       ∧ (apply_commands repo cmds de).commands.countP (fun c => c.default_branch) ≤ 1
       ∧ (∀ c ∈ (apply_commands repo cmds de).commands, c.default_branch = true →
            c.ref_type = RefTypeEnum.branch)
       ∧ (∀ l₁ c l₂, (apply_commands repo cmds de).commands = l₁ ++ c :: l₂ →
            c.default_branch = true → ∀ x ∈ l₁, x.ref_type = RefTypeEnum.tag)) := by
  intro cmds
  induction cmds with
  | nil => intro de _; simp [apply_commands]
  | cons c rest ih =>
    intro de hf
    have hcf := hf c (by simp)
    have ihs := fun de2 => ih de2 (fun x hx => hf x (by simp [hx]))
    by_cases ht : c.ref_type = RefTypeEnum.tag
    · obtain ⟨ihA, ihB, ihC, ihD⟩ := ihs de
      obtain ⟨c2, hrep, hflag2, htype2⟩ :
          ∃ c2, (apply_commands repo (c :: rest) de).commands
              = c2 :: (apply_commands repo rest de).commands
            ∧ c2.default_branch = false ∧ c2.ref_type = RefTypeEnum.tag := by
        cases hu : repo.updateReference c.ref_name (old_hash_opt c.old_hash) c.new_hash with
        | ok u => exact ⟨c, by simp [apply_commands, ht, hu], hcf, ht⟩
        | error e =>
          exact ⟨c.failed e, by simp [apply_commands, ht, hu],
            by simp [RefCommand.failed, hcf], by simp [RefCommand.failed, ht]⟩
      rw [hrep]
      refine ⟨?_, ?_, ?_, ?_⟩
      · intro hde x hx
        rcases List.mem_cons.mp hx with hx | hx
        · rw [hx]; exact hflag2
        · exact ihA hde x hx
      · rw [List.countP_cons]
        simp [hflag2]
        omega
      · intro x hx hxf
        rcases List.mem_cons.mp hx with hx | hx
        · rw [hx] at hxf; rw [hflag2] at hxf; cases hxf
        · exact ihC x hx hxf
      · intro l₁ x l₂ heq hxf
        cases l₁ with
        | nil => simp
        | cons a l₁2 =>
          simp only [List.cons_append, List.cons.injEq] at heq
          intro y hy
          rcases List.mem_cons.mp hy with hy | hy
          · rw [hy, ← heq.1]; exact htype2
          · exact ihD l₁2 x l₂ heq.2 hxf y hy
    · have hbr : c.ref_type = RefTypeEnum.branch := by
        cases hct : c.ref_type with
        | branch => rfl
        | tag => exact absurd hct ht
      by_cases hde : de
      · subst hde
        obtain ⟨ihA, ihB, ihC, ihD⟩ := ihs true
        have hallf := ihA rfl
        obtain ⟨c2, hrep, hflag2, htype2⟩ :
            ∃ c2, (apply_commands repo (c :: rest) true).commands
                = c2 :: (apply_commands repo rest true).commands
              ∧ c2.default_branch = false ∧ c2.ref_type = RefTypeEnum.branch := by
          cases hu : repo.updateReference c.ref_name (old_hash_opt c.old_hash) c.new_hash with
          | ok u => exact ⟨c, by simp [apply_commands, ht, hu], hcf, hbr⟩
          | error e =>
            exact ⟨c.failed e, by simp [apply_commands, ht, hu],
              by simp [RefCommand.failed, hcf], by simp [RefCommand.failed, hbr]⟩
        rw [hrep]
        refine ⟨?_, ?_, ?_, ?_⟩
        · intro _ x hx
          rcases List.mem_cons.mp hx with hx | hx
          · rw [hx]; exact hflag2
          · exact hallf x hx
        · rw [List.countP_cons]
          simp [hflag2]
          omega
        · intro x hx hxf
          rcases List.mem_cons.mp hx with hx | hx
          · rw [hx] at hxf; rw [hflag2] at hxf; cases hxf
          · exact ihC x hx hxf
        · intro l₁ x l₂ heq hxf
          cases l₁ with
          | nil => simp
          | cons a l₁2 =>
            simp only [List.cons_append, List.cons.injEq] at heq
            have hxmem : x ∈ (apply_commands repo rest true).commands := by
              rw [heq.2]
              simp
            rw [hallf x hxmem] at hxf
            cases hxf
      · have hdef : de = false := by simpa using hde
        subst hdef
        obtain ⟨ihA, ihB, ihC, ihD⟩ := ihs true
        have hallf := ihA rfl
        obtain ⟨c2, hrep, hflag2, htype2⟩ :
            ∃ c2, (apply_commands repo (c :: rest) false).commands
                = c2 :: (apply_commands repo rest true).commands
              ∧ c2.default_branch = true ∧ c2.ref_type = RefTypeEnum.branch := by
          cases hu : repo.updateReference c.ref_name (old_hash_opt c.old_hash) c.new_hash with
          | ok u => exact ⟨{ c with default_branch := true }, by simp [apply_commands, ht, hu],
              rfl, hbr⟩
          | error e =>
            exact ⟨RefCommand.failed { c with default_branch := true } e,
              by simp [apply_commands, ht, hu], by simp [RefCommand.failed],
              by simp [RefCommand.failed, hbr]⟩
        rw [hrep]
        refine ⟨?_, ?_, ?_, ?_⟩
        · intro hfalse
          cases hfalse
        · rw [List.countP_cons]
          have hzero : (apply_commands repo rest true).commands.countP
              (fun c => c.default_branch) = 0 :=
            List.countP_eq_zero.mpr (fun x hx => by simp [hallf x hx])
          simp [hflag2, hzero]
        · intro x hx hxf
          rcases List.mem_cons.mp hx with hx | hx
          · rw [hx]; exact htype2
          · rw [hallf x hx] at hxf; cases hxf
        · intro l₁ x l₂ heq hxf
          cases l₁ with
          | nil => simp
          | cons a l₁2 =>
            simp only [List.cons_append, List.cons.injEq] at heq
            have hxmem : x ∈ (apply_commands repo rest true).commands := by
              rw [heq.2]
              simp
            rw [hallf x hxmem] at hxf
            cases hxf

theorem flags_false_conjuncts (l : List RefCommand)
    (hf : ∀ c ∈ l, c.default_branch = false) :
    l.countP (fun c => c.default_branch) ≤ 1
    ∧ (∀ c ∈ l, c.default_branch = true → c.ref_type = RefTypeEnum.branch)
    ∧ (∀ l₁ c l₂, l = l₁ ++ c :: l₂ → c.default_branch = true →
        ∀ x ∈ l₁, x.ref_type = RefTypeEnum.tag)
    ∧ (∀ c ∈ l, c.default_branch = false) := by
  refine ⟨?_, ?_, ?_, hf⟩
  · have hz : l.countP (fun c => c.default_branch) = 0 :=
      List.countP_eq_zero.mpr (fun x hx => by simp [hf x hx])
    omega
  · intro c hc hcf
    rw [hf c hc] at hcf
    cases hcf
  · intro l₁ c l₂ heq hcf
    have hmem : c ∈ l := by rw [heq]; simp
    rw [hf c hmem] at hcf
    cases hcf

/-- Claim C7: every receive-pack run that returns a status report returns
`unpack ok` first, then exactly one status pkt-line per pending command —
as many lines as commands, in parse order (the processed commands keep the
pending commands' names in order) — and the flush marker last. -/
theorem receive_report_shape (s : Session) (repo : RepoModel) (chunks : List Str) (de : Bool)
    (h1 : repo.unpackStream chunks.flatten = Except.ok ())
    (h2 : repo.handlePackObjects = Except.ok ())
    (h3 : repo.hasDefaultBranch = Except.ok de)
    (h4 : repo.postReceiveHook = Except.ok ()) :
    (git_receive_pack_stream s repo chunks).1
        = Except.ok (pktLine (("unpack ok\n").toList)
            ++ (((git_receive_pack_stream s repo chunks).2.1.command_list).map
                (fun c => pktLine c.get_status)).flatten
            ++ PKT_LINE_END_MARKER)
      ∧ (git_receive_pack_stream s repo chunks).2.1.command_list.length
          = s.command_list.length
      ∧ (git_receive_pack_stream s repo chunks).2.1.command_list.map (fun c => c.ref_name)
          = s.command_list.map (fun c => c.ref_name) := by
  obtain ⟨hl, hn, _, hr, _⟩ := apply_commands_shape repo s.command_list de
  simp [git_receive_pack_stream, receive_core, h1, h2, h3, h4, hl, hn, hr,
    add_pkt_line_string_eq]

/-- Witness for C7 on a concrete two-command push. -/
theorem receive_report_shape_witness :
    (git_receive_pack_stream session_two_cmds repoOk []).1
        = Except.ok (pktLine (("unpack ok\n").toList)
            ++ (((git_receive_pack_stream session_two_cmds repoOk []).2.1.command_list).map
                (fun c => pktLine c.get_status)).flatten
            ++ PKT_LINE_END_MARKER)
      ∧ (git_receive_pack_stream session_two_cmds repoOk []).2.1.command_list.length
          = session_two_cmds.command_list.length
      ∧ (git_receive_pack_stream session_two_cmds repoOk []).2.1.command_list.map
            (fun c => c.ref_name)
          = session_two_cmds.command_list.map (fun c => c.ref_name) :=
  receive_report_shape session_two_cmds repoOk [] false (by decide) (by decide) (by decide)
    (by decide)

/-- Claim C8: across any receive-pack session whose pending commands are
unflagged (as the parser constructs them), at most one processed command
carries `default_branch = true`, any flagged command is a branch, every
command before the flagged one is a tag (so it is the earliest branch in
parse order), and no command is flagged when `has_default_branch` already
reports true. -/
theorem receive_default_branch_unique (s : Session) (repo : RepoModel) (chunks : List Str)
    (hf : ∀ c ∈ s.command_list, c.default_branch = false) :
    ((git_receive_pack_stream s repo chunks).2.1.command_list.countP
        (fun c => c.default_branch) ≤ 1)
      ∧ (∀ c ∈ (git_receive_pack_stream s repo chunks).2.1.command_list,
          c.default_branch = true → c.ref_type = RefTypeEnum.branch)
      ∧ (∀ l₁ c l₂,
          (git_receive_pack_stream s repo chunks).2.1.command_list = l₁ ++ c :: l₂ →
          c.default_branch = true → ∀ x ∈ l₁, x.ref_type = RefTypeEnum.tag)
      ∧ (repo.hasDefaultBranch = Except.ok true →
          ∀ c ∈ (git_receive_pack_stream s repo chunks).2.1.command_list,
            c.default_branch = false) := by
  cases hu : repo.unpackStream chunks.flatten with
  | error e =>
    obtain ⟨f1, f2, f3, f4⟩ := flags_false_conjuncts s.command_list hf
    simp only [git_receive_pack_stream, receive_core, hu]
    exact ⟨f1, f2, f3, fun _ => f4⟩
  | ok u =>
    cases u
    cases hh : repo.handlePackObjects with
    | error e =>
      obtain ⟨f1, f2, f3, f4⟩ := flags_false_conjuncts s.command_list hf
      simp only [git_receive_pack_stream, receive_core, hu, hh]
      exact ⟨f1, f2, f3, fun _ => f4⟩
    | ok u2 =>
      cases u2
      cases hd : repo.hasDefaultBranch with
      | error e =>
        obtain ⟨f1, f2, f3, f4⟩ := flags_false_conjuncts s.command_list hf
        simp only [git_receive_pack_stream, receive_core, hu, hh, hd]
        exact ⟨f1, f2, f3, fun _ => f4⟩
      | ok de =>
        obtain ⟨fA, fB, fC, fD⟩ := apply_commands_flags repo s.command_list de hf
        have hcmds : (git_receive_pack_stream s repo chunks).2.1.command_list
            = (apply_commands repo s.command_list de).commands := by
          cases hp : repo.postReceiveHook with
          | error e => simp [git_receive_pack_stream, receive_core, hu, hh, hd, hp]
          | ok u3 => cases u3; simp [git_receive_pack_stream, receive_core, hu, hh, hd, hp]
        rw [hcmds]
        refine ⟨fB, fC, fD, ?_⟩
        intro hdt
        have hde : de = true := by
          cases hdt
          rfl
        exact fA hde

/-- Witness for C8 on a concrete two-command push. -/
theorem receive_default_branch_unique_witness :
    ((git_receive_pack_stream session_two_cmds repoOk []).2.1.command_list.countP
        (fun c => c.default_branch) ≤ 1)
      ∧ (∀ c ∈ (git_receive_pack_stream session_two_cmds repoOk []).2.1.command_list,
          c.default_branch = true → c.ref_type = RefTypeEnum.branch)
      ∧ (∀ l₁ c l₂,
          (git_receive_pack_stream session_two_cmds repoOk []).2.1.command_list
            = l₁ ++ c :: l₂ →
          c.default_branch = true → ∀ x ∈ l₁, x.ref_type = RefTypeEnum.tag)
      ∧ (repoOk.hasDefaultBranch = Except.ok true →
          ∀ c ∈ (git_receive_pack_stream session_two_cmds repoOk []).2.1.command_list,
            c.default_branch = false) :=
  receive_default_branch_unique session_two_cmds repoOk [] (by decide)

/-- Claim C9: with a collaborator that may reject individual reference
updates, a receive-pack run still completes normally: `update_reference` is
invoked once per command in parse order (the full collaborator trace is
listed), and the report shows `ok <ref>` for each accepted command and
`ng <ref> <message>` — with the collaborator's message — for each rejected
one, in order. -/
theorem receive_update_failure_recovery (s : Session) (repo : RepoModel) (chunks : List Str)
    (de : Bool)
    (h1 : repo.unpackStream chunks.flatten = Except.ok ())
    (h2 : repo.handlePackObjects = Except.ok ())
    (h3 : repo.hasDefaultBranch = Except.ok de)
    (h4 : repo.postReceiveHook = Except.ok ())
    (h5 : ∀ c ∈ s.command_list, c.status = CmdStatus.ok) :
    (git_receive_pack_stream s repo chunks).1
        = Except.ok (pktLine (("unpack ok\n").toList)
            ++ (s.command_list.map (fun c =>
                pktLine
                  (match repo.updateReference c.ref_name (old_hash_opt c.old_hash)
                      c.new_hash with
                    | Except.ok _ => ("ok").toList ++ [SP] ++ c.ref_name
                    | Except.error m =>
                      ("ng").toList ++ [SP] ++ c.ref_name ++ [SP] ++ m))).flatten
            ++ PKT_LINE_END_MARKER)
      ∧ (git_receive_pack_stream s repo chunks).2.2
          = [RepoCall.unpackStream, RepoCall.handlePackObjects, RepoCall.hasDefaultBranch]
            ++ s.command_list.map (fun c =>
                RepoCall.updateReference c.ref_name (old_hash_opt c.old_hash) c.new_hash)
            ++ [RepoCall.postReceiveHook] := by
  have hrep := apply_commands_status repo s.command_list de h5
  obtain ⟨_, _, _, _, htr⟩ := apply_commands_shape repo s.command_list de
  simp [git_receive_pack_stream, receive_core, h1, h2, h3, h4, hrep, htr,
    add_pkt_line_string_eq]

/-- Witness for C9: two branch commands where the collaborator accepts
`refs/heads/main` and rejects `refs/heads/other` with `locked`. -/
theorem receive_update_failure_recovery_witness :
    (git_receive_pack_stream session_two_cmds repo_locked []).1
        = Except.ok (pktLine (("unpack ok\n").toList)
            ++ (session_two_cmds.command_list.map (fun c =>
                pktLine
                  (match repo_locked.updateReference c.ref_name (old_hash_opt c.old_hash)
                      c.new_hash with
                    | Except.ok _ => ("ok").toList ++ [SP] ++ c.ref_name
                    | Except.error m =>
                      ("ng").toList ++ [SP] ++ c.ref_name ++ [SP] ++ m))).flatten
            ++ PKT_LINE_END_MARKER)
      ∧ (git_receive_pack_stream session_two_cmds repo_locked []).2.2
          = [RepoCall.unpackStream, RepoCall.handlePackObjects, RepoCall.hasDefaultBranch]
            ++ session_two_cmds.command_list.map (fun c =>
                RepoCall.updateReference c.ref_name (old_hash_opt c.old_hash) c.new_hash)
            ++ [RepoCall.postReceiveHook] :=
  receive_update_failure_recovery session_two_cmds repo_locked [] false (by decide)
    (by decide) (by decide) (by decide) (by decide)

set_option maxRecDepth 32768 in
/-- Claim C6, counterexample: for the single-ref list `refs/heads/main`,
parsing the SSH advertisement and stripping the capability tail of the
first line yields two lines — the synthesized `<hash> HEAD` line plus the
ref line — not the input ref list: the loop re-emits every input ref below
the synthesized first line, so an entry is added. -/
theorem info_refs_roundtrip_fails :
    strip_first_cap_tail (parse_pkt_lines adv_out)
        ≠ ([((("refs/heads/main").toList), hashA)]).map
            (fun r => r.2 ++ [SP] ++ r.1 ++ [LF])
      ∧ (parse_pkt_lines adv_out).length
          = ([((("refs/heads/main").toList), hashA)]).length + 1
      ∧ (git_info_refs session_ssh_upload repo_main_ref).1 = Except.ok adv_out := by decide

theorem parse_tail_of_cons (hl : Str) (rest : List Str)
    (hb : ∀ l ∈ hl :: rest, l ≠ [] ∧ l.length + 4 ≤ 65535) :
    (parse_pkt_lines (((hl :: rest).map pktLine).flatten ++ PKT_LINE_END_MARKER)).tail = rest
    ∧ (parse_pkt_lines (((hl :: rest).map pktLine).flatten
        ++ PKT_LINE_END_MARKER)).length = rest.length + 1 := by
  rw [parse_pkt_lines_flatten _ hb]
  simp

set_option maxHeartbeats 4000000 in
/-- Claim C6 (amended): parsing the pkt-lines of the SSH `git_info_refs`
output and dropping the whole first (capability-advertisement) line — not
merely its capability tail — reproduces the input ref list exactly, in
order, with no entry repeated or added; the parsed output has exactly one
line more than the input list. -/
theorem info_refs_roundtrip_tail (s : Session) (repo : RepoModel)
    (st : ServiceType) (refs : List (Str × Str)) (out : Str)
    (hst : s.service_type = some st)
    (htp : s.transport_protocol = TransportProtocol.ssh)
    (hrefs : repo.getRefs = Except.ok refs)
    (hbound : ∀ r ∈ refs, r.1.length + r.2.length ≤ 60000)
    (hout : (git_info_refs s repo).1 = Except.ok out) :
    (parse_pkt_lines out).tail = refs.map (fun r => r.2 ++ [SP] ++ r.1 ++ [LF])
      ∧ (parse_pkt_lines out).length = refs.length + 1 := by
  have hhh : (info_refs_head_hash refs).length ≤ 60000 := by
    rw [info_refs_head_hash]
    cases hf : refs.find? head_candidate with
    | none => decide
    | some r =>
      have hm := List.mem_of_find?_eq_some hf
      have := hbound r hm
      show r.2.length ≤ 60000
      omega
  cases st with
  | uploadPack =>
    simp only [git_info_refs, hst, hrefs, htp] at hout
    simp only [Except.ok.injEq] at hout
    subst hout
    simp only [build_smart_reply]
    rw [parse_pkt_lines_flatten]
    · simp
    · intro l hl
      rcases List.mem_cons.mp hl with hl | hl
      · subst hl
        refine ⟨by simp, ?_⟩
        have hc1 : UPLOAD_CAP_LIST.length + COMMON_CAP_LIST.length ≤ 200 := by decide
        have hnm : (if info_refs_head_hash refs = ZERO_ID.toList
            then ("capabilities^\x7b\x7d").toList else ("HEAD").toList).length ≤ 20 := by
          split <;> decide
        simp only [List.length_append, List.length_cons, List.length_nil]
        omega
      · obtain ⟨r, hr, hrl⟩ := List.mem_map.mp hl
        subst hrl
        have := hbound r hr
        refine ⟨by simp, ?_⟩
        simp only [List.length_append, List.length_cons, List.length_nil]
        omega
  | receivePack =>
    simp only [git_info_refs, hst, hrefs, htp] at hout
    simp only [Except.ok.injEq] at hout
    subst hout
    simp only [build_smart_reply]
    rw [parse_pkt_lines_flatten]
    · simp
    · intro l hl
      rcases List.mem_cons.mp hl with hl | hl
      · subst hl
        refine ⟨by simp, ?_⟩
        have hc1 : RECEIVE_CAP_LIST.length + COMMON_CAP_LIST.length ≤ 200 := by decide
        have hnm : (if info_refs_head_hash refs = ZERO_ID.toList
            then ("capabilities^\x7b\x7d").toList else ("HEAD").toList).length ≤ 20 := by
          split <;> decide
        simp only [List.length_append, List.length_cons, List.length_nil]
        omega
      · obtain ⟨r, hr, hrl⟩ := List.mem_map.mp hl
        subst hrl
        have := hbound r hr
        refine ⟨by simp, ?_⟩
        simp only [List.length_append, List.length_cons, List.length_nil]
        omega

set_option maxRecDepth 32768 in
/-- Witness for the amended C6 theorem on the concrete one-ref repository. -/
theorem info_refs_roundtrip_tail_witness :
    (parse_pkt_lines adv_out).tail
        = ([((("refs/heads/main").toList), hashA)]).map (fun r => r.2 ++ [SP] ++ r.1 ++ [LF])
      ∧ (parse_pkt_lines adv_out).length
          = ([((("refs/heads/main").toList), hashA)]).length + 1 :=
  info_refs_roundtrip_tail session_ssh_upload repo_main_ref ServiceType.uploadPack
    [((("refs/heads/main").toList), hashA)] adv_out (by decide) (by decide) (by decide)
    (by decide) (by decide)

theorem hexDigitsAux_mem_hexVal :
    ∀ (fuel n : Nat) (c : Char), n < fuel → c ∈ hexDigitsAux fuel n → hexVal c ≠ none := by
  intro fuel
  induction fuel with
  | zero => intro n c h hc; simp [hexDigitsAux] at hc
  | succ f ih =>
    intro n c hn hc
    by_cases h16 : n < 16
    · simp only [hexDigitsAux, h16, if_true, List.mem_singleton] at hc
      subst hc
      rw [hexVal_hexChar n h16]
      simp
    · simp only [hexDigitsAux, h16, if_false, List.mem_append, List.mem_singleton] at hc
      rcases hc with hc | hc
      · have hlt : n / 16 < n := Nat.div_lt_self (by omega) (by omega)
        exact ih (n / 16) c (by omega) hc
      · subst hc
        rw [hexVal_hexChar (n % 16) (by omega)]
        simp

/-- Claim C10: with `side-band` or `side-band-64k` enabled,
`build_side_band_format` emits exactly the `{:04x}` lowercase-hex encoding
of `length + 5` (every emitted prefix character is a hex digit), then the
single pack-data band byte `1`, then the payload; with neither capability
the payload is returned unchanged.  No maximum-payload check exists: the
prefix has exactly four characters precisely when `length + 5 ≤ 0xFFFF`,
i.e. `length ≤ 65530`. -/
theorem side_band_format_spec (s : Session) (from_bytes : Str) (length : Nat) :
    ((s.capabilities.contains Capability.sideBand
        || s.capabilities.contains Capability.sideBand64k) = true →
      build_side_band_format s from_bytes length
        = hexPad4 (length + 5) ++ [Char.ofNat 1] ++ from_bytes)
    ∧ ((s.capabilities.contains Capability.sideBand
        || s.capabilities.contains Capability.sideBand64k) = false →
      build_side_band_format s from_bytes length = from_bytes)
    ∧ ((hexPad4 (length + 5)).length = 4 ↔ length ≤ 65530)
    ∧ (∀ c ∈ hexPad4 (length + 5), hexVal c ≠ none) := by
  refine ⟨?_, ?_, ?_, ?_⟩
  · intro h
    rw [build_side_band_format, if_pos h]
    rfl
  · intro h
    simp only [Bool.or_eq_false_iff] at h
    rw [build_side_band_format,
      if_neg (by rw [h.1, h.2]; intro hfalse; cases hfalse)]
  · have := hexPad4_length_eq_four_iff (length + 5)
    omega
  · intro c hc
    rw [hexPad4] at hc
    rcases List.mem_append.mp hc with hc | hc
    · have : c = '0' := List.eq_of_mem_replicate hc
      subst this
      decide
    · exact hexDigitsAux_mem_hexVal _ _ c (by omega) hc

/-- Witness for C10 with the `side-band` capability enabled on a two-byte
payload. -/
theorem side_band_format_spec_witness :
    build_side_band_format session_sideband (("ab").toList) 2
      = hexPad4 7 ++ [Char.ofNat 1] ++ (("ab").toList) :=
  (side_band_format_spec session_sideband (("ab").toList) 2).1 (by decide)
